import Mathlib

/-!
# TinyTail — verification of the log store and alert engine

Shallow embedding of the TinyTail serverless log system (Go) into Lean 4.

The repository contains two variants of the `store` package:
* the chunk-group variant (the store shipped next to the alert engine),
  whose `StoreLogEntry` splits an oversized message into items tagged with
  `chunk_index` / `total_chunks` and whose `unmarshalAndReassemble`
  regroups and concatenates them; and
* an older variant (`lambda/internal/store/logs.go`) that stores
  independent `[CONTINUED i/n]` entries and decodes items one by one.

Top-level definitions embed the chunk-group variant; the `V0` namespace
embeds the older variant where a claim needs it.

Go strings are compared byte-wise; ULID strings and sort keys are modelled
as `List Char` (all relevant characters are ASCII, so char-wise equals
byte-wise comparison).  Message payloads are byte lists (`List Nat`).
Instants are integers (the embedding fixes a time unit per use site);
DynamoDB is modelled as a list of items sorted by sort key, with `Query`
returning the items matching the key condition in sort-key order
(forward or reverse) up to the requested limit — exactly the interface
contract the code relies on.  `time.Parse` / `Format` for RFC3339Nano are
kept as function parameters of the embedding (they are opaque stdlib
calls); theorems quantify over them or instantiate them concretely.
-/

/-- Go byte-wise string comparison `a < b` (on char lists; all strings
involved are ASCII so char order equals byte order). -/
def goStrLt : List Char → List Char → Bool
  | [], [] => false
  | [], _ :: _ => true
  | _ :: _, [] => false
  | a :: as, b :: bs =>
    if a < b then true
    else if a = b then goStrLt as bs
    else false

/-- Crockford base32 alphabet used by `oklog/ulid` (package `ulid`,
`Encoding = "0123456789ABCDEFGHJKMNPQRSTVWXYZ"`). -/
def ulidAlphabet : List Char := "0123456789ABCDEFGHJKMNPQRSTVWXYZ".toList

/-- The base32 digit `d` as a character of the ULID alphabet. -/
def ulidDigit (d : Nat) : Char := ulidAlphabet.getD d '0'

/-- Big-endian base-32 digits of `n`, `k` digits wide (the fixed-width
encoding `ulid.ULID.String` uses for both the 48-bit time part and the
80-bit entropy part). -/
def digitsBE : Nat → Nat → List Nat
  | 0, _ => []
  | k + 1, n => n / 32 ^ k :: digitsBE k (n % 32 ^ k)

/-- The 10-character time prefix of a ULID for millisecond timestamp `ms`. -/
def ulidTimeChars (ms : Nat) : List Char := (digitsBE 10 ms).map ulidDigit

/-- The 16-character entropy suffix of a ULID for entropy value `e`. -/
def ulidEntropyChars (e : Nat) : List Char := (digitsBE 16 e).map ulidDigit

/-- `ulid.MustNew(ms, entropy).String()`: 26-character ULID string. -/
def ulidChars (ms e : Nat) : List Char := ulidTimeChars ms ++ ulidEntropyChars e

/-- `ulid.Timestamp(t)`: milliseconds of the instant `t` (here `t` in
nanoseconds since epoch, as `time.Time` carries). -/
def goTimestampMs (tNs : Nat) : Nat := tNs / 1000000

/-- `LogStore.TimeToCursor` (logs.go): `ulid.MustNew(ulid.Timestamp(t), nil)`
— nil entropy reader leaves the entropy bytes zero. -/
def TimeToCursor (tNs : Nat) : List Char := ulidChars (goTimestampMs tNs) 0

/-- `store.MaxMessageSize = 350 * 1024`. -/
def MaxMessageSize : Nat := 350 * 1024

/-- `store.LogEntry` — the logical entry surfaced to handlers.  The message
is a byte list (`[]byte` view of the Go string); `timestamp` is an instant,
`cursor` the ULID char list populated on read. -/
structure LogEntry where
  level : String
  message : List Nat
  source : String
  logger : String
  timestamp : Int
  requestID : String
  cursor : List Char
  deriving DecidableEq, Repr

/-- `store.dynamoDBLogItem` — the physical item (chunk-group variant). -/
structure DBItem where
  pk : String
  timestampSeq : List Char
  timestamp : String
  level : String
  message : List Nat
  source : String
  logger : String
  requestID : String
  chunkIndex : Nat
  totalChunks : Nat
  expireAt : Int
  deriving DecidableEq, Repr

/-- `storeSingleItem`: builds the single DynamoDB item for `entry` under
ULID `ulidStr`, sort key `ulidStr#chunkIndex`, normalising an empty
`requestID` to `"none"`.  `fmtTs` stands for
`entry.Timestamp.Format(time.RFC3339Nano)`; `expireAt` for
`time.Now().Add(TTLDays*24h).Unix()`. -/
def storeSingleItem (fmtTs : Int → String) (expireAt : Int) (entry : LogEntry)
    (ulidStr : List Char) (chunkIndex totalChunks : Nat) : DBItem :=
  { pk := "LOGS"
    timestampSeq := ulidStr ++ '#' :: (toString chunkIndex).toList
    timestamp := fmtTs entry.timestamp
    level := entry.level
    message := entry.message
    source := entry.source
    logger := entry.logger
    requestID := if entry.requestID = "" then "none" else entry.requestID
    chunkIndex := chunkIndex
    totalChunks := totalChunks
    expireAt := expireAt }

/-- The byte range of chunk `i`: `messageBytes[i*MaxMessageSize : min((i+1)*MaxMessageSize, len)]`. -/
def chunkSlice (msg : List Nat) (i : Nat) : List Nat :=
  (msg.drop (i * MaxMessageSize)).take MaxMessageSize

/-- `storeChunkedItems`: one item per chunk, all sharing the ULID prefix,
sort keys `ulid#0 … ulid#(n-1)`, carrying `chunk_index`/`total_chunks`. -/
def storeChunkedItems (fmtTs : Int → String) (expireAt : Int) (entry : LogEntry)
    (ulidStr : List Char) : List DBItem :=
  let totalChunks := (entry.message.length + MaxMessageSize - 1) / MaxMessageSize
  (List.range totalChunks).map fun i =>
    { pk := "LOGS"
      timestampSeq := ulidStr ++ '#' :: (toString i).toList
      timestamp := fmtTs entry.timestamp
      level := entry.level
      message := chunkSlice entry.message i
      source := entry.source
      logger := entry.logger
      requestID := if entry.requestID = "" then "none" else entry.requestID
      chunkIndex := i
      totalChunks := totalChunks
      expireAt := expireAt }

/-- `StoreLogEntry` (chunk-group variant): the list of items it puts.  The
freshly minted random ULID is a parameter `ulidStr` (the Go code draws it
from `rand.Reader`). -/
def StoreLogEntry (fmtTs : Int → String) (expireAt : Int) (entry : LogEntry)
    (ulidStr : List Char) : List DBItem :=
  if entry.message.length ≤ MaxMessageSize then
    [storeSingleItem fmtTs expireAt entry ulidStr 0 1]
  else
    storeChunkedItems fmtTs expireAt entry ulidStr

/-- `strings.Split(dbItem.TimestampSeq, "#")[0]` — the cursor column of a
sort key: everything before the first `#`. -/
def splitKey (l : List Char) : List Char := l.takeWhile (fun ch => ch ≠ '#')

/-- `chunkedMessages[ulidPart] = append(chunkedMessages[ulidPart], dbItem)`:
append `it` to the group keyed `k`, creating the group at the end on first
sight.  (Go map iteration order is unspecified; every theorem below either
involves at most one chunk group or is insensitive to group order, so the
first-insertion order used here is a sound model.) -/
def insertChunk : List (List Char × List DBItem) → List Char → DBItem →
    List (List Char × List DBItem)
  | [], k, it => [(k, [it])]
  | (k', its) :: rest, k, it =>
    if k' = k then (k', its ++ [it]) :: rest
    else (k', its) :: insertChunk rest k it

/-- One iteration of the grouping loop of `unmarshalAndReassemble`: an
item with `TotalChunks > 1` joins its chunk group, any other item is
appended to the stand-alone list. -/
def partStep (acc : List (List Char × List DBItem) × List DBItem)
    (it : DBItem) : List (List Char × List DBItem) × List DBItem :=
  if it.totalChunks > 1 then
    (insertChunk acc.1 (splitKey it.timestampSeq) it, acc.2)
  else
    (acc.1, acc.2 ++ [it])

/-- The grouping loop of `unmarshalAndReassemble`: items with
`TotalChunks > 1` are grouped by cursor column, the rest collected in
order. -/
def partitionItems (items : List DBItem) :
    List (List Char × List DBItem) × List DBItem :=
  items.foldl partStep ([], [])

/-- One reassembled entry from a chunk group (`firstChunk := chunks[0]`,
message = concatenation of the group's chunk messages in encounter order);
`none` for an empty group (the `len(chunks) == 0 { continue }` guard). -/
def chunkEntry (parseTs : String → Option Int) (chunks : List DBItem) :
    Option LogEntry :=
  match chunks with
  | [] => none
  | firstChunk :: _ =>
    some
      { level := firstChunk.level
        message := (chunks.map (fun c => c.message)).flatten
        source := firstChunk.source
        logger := firstChunk.logger
        timestamp := (parseTs firstChunk.timestamp).getD 0
        requestID := firstChunk.requestID
        cursor := splitKey firstChunk.timestampSeq }

/-- One decoded entry from a stand-alone item.  `timestamp, _ :=
time.Parse(time.RFC3339Nano, dbItem.Timestamp)` ignores the parse error,
so an unparseable timestamp yields the zero instant. -/
def singleEntry (parseTs : String → Option Int) (it : DBItem) : LogEntry :=
  { level := it.level
    message := it.message
    source := it.source
    logger := it.logger
    timestamp := (parseTs it.timestamp).getD 0
    requestID := it.requestID
    cursor := splitKey it.timestampSeq }

/-- `unmarshalAndReassemble` (chunk-group variant): group multi-chunk items
by cursor column, emit the reassembled groups first, then the stand-alone
items in order. -/
def unmarshalAndReassemble (items : List DBItem)
    (parseTs : String → Option Int) : List LogEntry :=
  let p := partitionItems items
  p.1.filterMap (fun g => chunkEntry parseTs g.2) ++ p.2.map (singleEntry parseTs)

/-- DynamoDB `Query` against the single-partition table: the store is a
list of items sorted ascending by `timestamp_seq`; a query returns the
items matching the key condition in sort-key order, reversed when
`ScanIndexForward` is false. -/
def queryStore (store : List DBItem) (cond : DBItem → Bool)
    (scanForward : Bool) : List DBItem :=
  let matched := store.filter cond
  if scanForward then matched else matched.reverse

/-- `GetLogs(ctx, limit, afterCursor, beforeCursor)` (chunk-group variant):
limit clamped to `[1,500]` (default 100), key condition
`timestamp_seq > afterCursor+"#0"` forward / `< beforeCursor+"#0"`
backward / unbounded backward, DynamoDB `Limit = limit*2`, decode, reverse
the backward result, truncate to `limit`. -/
def GetLogs (store : List DBItem) (parseTs : String → Option Int)
    (limit0 : Int) (afterCursor beforeCursor : List Char) : List LogEntry :=
  let limit : Int := if limit0 ≤ 0 then 100 else if limit0 > 500 then 500 else limit0
  if afterCursor ≠ [] then
    let raw := (queryStore store
        (fun it => goStrLt (afterCursor ++ ['#', '0']) it.timestampSeq) true).take
        (limit * 2).toNat
    (unmarshalAndReassemble raw parseTs).take limit.toNat
  else if beforeCursor ≠ [] then
    let raw := (queryStore store
        (fun it => goStrLt it.timestampSeq (beforeCursor ++ ['#', '0'])) false).take
        (limit * 2).toNat
    ((unmarshalAndReassemble raw parseTs).reverse).take limit.toNat
  else
    let raw := (queryStore store (fun _ => true) false).take (limit * 2).toNat
    (unmarshalAndReassemble raw parseTs).take limit.toNat

/-- The `BETWEEN startULID#0 AND endULID#999` key condition of the
time-range queries (`start`/`end` in nanoseconds; the bound ULIDs use nil
entropy). -/
def timeRangeCond (startNs endNs : Nat) (it : DBItem) : Bool :=
  !goStrLt it.timestampSeq (TimeToCursor startNs ++ ['#', '0']) &&
  !goStrLt (TimeToCursor endNs ++ ['#', '9', '9', '9']) it.timestampSeq

/-- `queryLogsByTimeRange` (chunk-group variant): paginated descending
fetch of every item in the range, decoded/reassembled.  (The paginator
concatenates pages; the store states used in the theorems below fit a
single page, so the fetch is modelled as one page.) -/
def queryLogsByTimeRange (store : List DBItem) (parseTs : String → Option Int)
    (startNs endNs : Nat) : List LogEntry :=
  unmarshalAndReassemble (queryStore store (timeRangeCond startNs endNs) false) parseTs

/-- `GetLogsByTimeRange` (chunk-group variant): one descending query with
`Limit = limit*2`, decode, truncate to `limit`. -/
def GetLogsByTimeRange (store : List DBItem) (parseTs : String → Option Int)
    (startNs endNs : Nat) (limit : Int) : List LogEntry :=
  let raw := (queryStore store (timeRangeCond startNs endNs) false).take
      (limit * 2).toNat
  (unmarshalAndReassemble raw parseTs).take limit.toNat

namespace V0

/-- `unmarshalAndReassemble` of `lambda/internal/store/logs.go`: no chunk
grouping — one `LogEntry` per item, in order. -/
def unmarshalAndReassemble (items : List DBItem)
    (parseTs : String → Option Int) : List LogEntry :=
  items.map (singleEntry parseTs)

/-- `GetLogs` of `lambda/internal/store/logs.go`: same shape as the
chunk-group variant but with DynamoDB `Limit = limit` (no over-fetch). -/
def GetLogs (store : List DBItem) (parseTs : String → Option Int)
    (limit0 : Int) (afterCursor beforeCursor : List Char) : List LogEntry :=
  let limit : Int := if limit0 ≤ 0 then 100 else if limit0 > 500 then 500 else limit0
  if afterCursor ≠ [] then
    let raw := (queryStore store
        (fun it => goStrLt (afterCursor ++ ['#', '0']) it.timestampSeq) true).take
        limit.toNat
    (V0.unmarshalAndReassemble raw parseTs).take limit.toNat
  else if beforeCursor ≠ [] then
    let raw := (queryStore store
        (fun it => goStrLt it.timestampSeq (beforeCursor ++ ['#', '0'])) false).take
        limit.toNat
    ((V0.unmarshalAndReassemble raw parseTs).reverse).take limit.toNat
  else
    let raw := (queryStore store (fun _ => true) false).take limit.toNat
    (V0.unmarshalAndReassemble raw parseTs).take limit.toNat

end V0

/-! ## Alert engine (`internal/alerts`) -/

/-- A DynamoDB attribute value (the alert table is accessed through raw
attribute maps).  A numeric attribute carries its integer value —
`recordAlert` writes `fmt.Sprintf("%d", n)` and `shouldSendAlert` reads it
back with `fmt.Sscanf("%d")`, an exact round trip for `int64`. -/
inductive AttrVal where
  | S (s : String)
  | N (n : Int)
  | B (b : Bool)
  deriving DecidableEq, Repr

/-- An item of the alerts table: an attribute map. -/
def AlertAttrs := List (String × AttrVal)

instance : DecidableEq AlertAttrs := by
  unfold AlertAttrs
  infer_instance

/-- `alerts.AlertRule`. -/
structure AlertRule where
  pattern : String
  window : String
  email : String
  deriving DecidableEq, Repr

/-- `c` is an ASCII decimal digit. -/
def isDigitCh (c : Char) : Bool := '0' ≤ c && c ≤ '9'

/-- Leading decimal integer of a char list and the unconsumed rest
(Go `leadingInt`, overflow ignored — the inputs of interest are small). -/
def leadingInt (s : List Char) : Nat × List Char :=
  match s with
  | [] => (0, [])
  | c :: rest =>
    if isDigitCh c then
      let (v, r) := leadingInt rest
      -- big-endian accumulation: digit c weighs 10^(digits consumed after it)
      (c.toNat - '0'.toNat) * 10 ^ (rest.length - r.length) + v |> fun n => (n, r)
    else (0, s)

/-- Leading fraction digits: value, scale `10^k`, rest (Go `leadingFraction`;
the Go float scaling is modelled with exact integer arithmetic). -/
def leadingFraction (s : List Char) : Nat × Nat × List Char :=
  let (v, r) := leadingInt s
  (v, 10 ^ (s.length - r.length), r)

/-- The `unitMap` of `time.ParseDuration` in nanoseconds (no `"d"` unit!). -/
def unitNs (u : List Char) : Option Nat :=
  if u = ['n', 's'] then some 1
  else if u = ['u', 's'] then some 1000
  else if u = ['µ', 's'] then some 1000
  else if u = ['μ', 's'] then some 1000
  else if u = ['m', 's'] then some 1000000
  else if u = ['s'] then some 1000000000
  else if u = ['m'] then some 60000000000
  else if u = ['h'] then some 3600000000000
  else none

/-- The component loop of `time.ParseDuration`: repeatedly read
`[digits][.digits]unit` and sum the contributions.  `fuel` only bounds the
recursion; each iteration consumes at least one character, so
`s.length + 1` fuel never runs out. -/
def goDurLoop : Nat → List Char → Except String Nat
  | 0, _ => .error "time: invalid duration"
  | _ + 1, [] => .ok 0
  | fuel + 1, s =>
    let headOk := match s with
      | c :: _ => c = '.' || isDigitCh c
      | [] => false
    if !headOk then .error "time: invalid duration"
    else
      let (v, s1) := leadingInt s
      let pre := decide (s1.length ≠ s.length)
      let (f, scale, s2, post) :=
        match s1 with
        | '.' :: r =>
          let (f, sc, r') := leadingFraction r
          (f, sc, r', decide (r'.length ≠ r.length))
        | _ => (0, 1, s1, false)
      if !pre && !post then .error "time: invalid duration"
      else
        let (u, s3) := s2.span fun c => !(c = '.' || isDigitCh c)
        if u = [] then .error "time: missing unit in duration"
        else
          match unitNs u with
          | none => .error "time: unknown unit in duration"
          | some unit =>
            match goDurLoop fuel s3 with
            | .error e => .error e
            | .ok rest => .ok (v * unit + f * unit / scale + rest)

/-- `time.ParseDuration` (result in nanoseconds). -/
def goParseDuration (s : List Char) : Except String Int :=
  let (neg, s') :=
    match s with
    | '-' :: r => (true, r)
    | '+' :: r => (false, r)
    | _ => (false, s)
  if s' = ['0'] then .ok 0
  else if s' = [] then .error "time: invalid duration"
  else
    match goDurLoop (s'.length + 1) s' with
    | .error e => .error e
    | .ok n => .ok (if neg then -(n : Int) else (n : Int))

/-- `c` is one of the white-space characters `strings.TrimSpace` strips
(ASCII subset; the claims never exercise Unicode spaces). -/
def isSpaceCh (c : Char) : Bool :=
  c = ' ' || c = '\t' || c = '\n' || c = '\r'

/-- `strings.TrimSpace(strings.ToLower(window))` as a char list. -/
def goTrimLower (s : String) : List Char :=
  ((((s.toList.map Char.toLower).dropWhile isSpaceCh).reverse.dropWhile
    isSpaceCh).reverse)

/-- `strings.HasSuffix(window, suffix)` for a one-character suffix. -/
def hasSuffix1 (s : List Char) (c : Char) : Bool := s.getLast? = some c

/-- `fmt.Sscanf(s, "%d", &d)` leaving `d = 0` when no integer can be read:
skip spaces, optional sign, leading digits (zero digits parse as 0). -/
def sscanfInt (s : List Char) : Int :=
  let s1 := s.dropWhile isSpaceCh
  match s1 with
  | '-' :: r => -((leadingInt r).1 : Int)
  | '+' :: r => ((leadingInt r).1 : Int)
  | _ => ((leadingInt s1).1 : Int)

/-- `alerts.parseWindow` (result in nanoseconds): lowercase + trim, then
the `m`-suffix branch re-parses `TrimSuffix(w,"m") + "m"`, the `h` branch
parses the string, the `d` branch scans the digits with `Sscanf`
(*ignoring its error*) and multiplies by 24h, and anything else falls back
to the generic duration parse. -/
def parseWindow (w : String) : Except String Int :=
  let win := goTrimLower w
  if hasSuffix1 win 'm' then
    goParseDuration (win.dropLast ++ ['m'])
  else if hasSuffix1 win 'h' then
    goParseDuration win
  else if hasSuffix1 win 'd' then
    let d := sscanfInt win.dropLast
    .ok (d * 24 * 3600000000000)
  else
    goParseDuration win

/-- `shouldSendAlert`: no item ⇒ alert; item whose `lastAlertSent` is a
numeric attribute within the window ⇒ suppress; any other shape of item ⇒
alert.  `now` is the invocation instant in Unix seconds, `windowNs` the
window in nanoseconds (`time.Since(lastAlertTime) < window` compares
nanoseconds). -/
def shouldSendAlert (item : Option AlertAttrs) (now : Int) (windowNs : Int) :
    Bool :=
  match item with
  | none => true
  | some attrs =>
    match attrs.lookup "lastAlertSent" with
    | some (AttrVal.N lastAlertUnix) =>
      if (now - lastAlertUnix) * 1000000000 < windowNs then false else true
    | _ => true

/-- `recordAlert`: the item written after a successful send
(`lastAlertSent = now`, `matchCount`, `ttl = now + window + 24h`). -/
def recordAlert (ruleID : String) (now : Int) (matchCount : Nat)
    (windowNs : Int) : AlertAttrs :=
  [("ruleID", AttrVal.S ruleID),
   ("lastAlertSent", AttrVal.N now),
   ("matchCount", AttrVal.N (matchCount : Int)),
   ("ttl", AttrVal.N (now + (windowNs + 24 * 3600000000000) / 1000000000))]

/-- Observable outcome of `processRule` for one rule in one cycle. -/
inductive CycleOutcome where
  | errorInvalidWindow
  | skippedDedup
  | noMatches
  | emailFailed
  | sent
  deriving DecidableEq, Repr

/-- `processRule` for one rule: parse the window (error ⇒ skip, nothing
touched); check the dedup state; query the log store for matches over
`[now-window, now]` (the count is the oracle `nMatches` — the query is
I/O); send the email (success is the oracle `emailOk`); only after a
successful send overwrite the dedup state.  Returns the rule's dedup item
after the cycle and the outcome. -/
def processRule (rule : AlertRule) (ruleID : String) (state : Option AlertAttrs)
    (now : Int) (nMatches : Nat) (emailOk : Bool) :
    Option AlertAttrs × CycleOutcome :=
  match parseWindow rule.window with
  | .error _ => (state, .errorInvalidWindow)
  | .ok windowNs =>
    if !shouldSendAlert state now windowNs then (state, .skippedDedup)
    else if nMatches = 0 then (state, .noMatches)
    else if !emailOk then (state, .emailFailed)
    else (some (recordAlert ruleID now nMatches windowNs), .sent)

/-- A sequence of alert cycles for one rule: each cycle is
`(now, matches, emailOk)`.  Returns the final dedup item and the outcomes. -/
def runCycles (rule : AlertRule) (ruleID : String) :
    Option AlertAttrs → List (Int × Nat × Bool) →
    Option AlertAttrs × List CycleOutcome
  | st, [] => (st, [])
  | st, (now, nMatches, emailOk) :: rest =>
    let r := processRule rule ruleID st now nMatches emailOk
    let tail := runCycles rule ruleID r.1 rest
    (tail.1, r.2 :: tail.2)

/-- The instants of the cycles that actually sent a notification. -/
def sentTimes (rule : AlertRule) (ruleID : String) :
    Option AlertAttrs → List (Int × Nat × Bool) → List Int
  | _, [] => []
  | st, (now, nMatches, emailOk) :: rest =>
    let r := processRule rule ruleID st now nMatches emailOk
    if r.2 = .sent then now :: sentTimes rule ruleID r.1 rest
    else sentTimes rule ruleID r.1 rest

/-! ## Basic facts about byte-wise comparison -/

theorem goStrLt_nil_right (l : List Char) : goStrLt l [] = false := by
  cases l <;> rfl

theorem goStrLt_irrefl (l : List Char) : goStrLt l l = false := by
  induction l with
  | nil => rfl
  | cons a as ih => simp [goStrLt, ih]

theorem goStrLt_asymm {a b : List Char} (h : goStrLt a b = true) :
    goStrLt b a = false := by
  induction a generalizing b with
  | nil =>
    cases b with
    | nil => simp [goStrLt] at h
    | cons y ys => simp [goStrLt]
  | cons x xs ih =>
    cases b with
    | nil => simp [goStrLt] at h
    | cons y ys =>
      by_cases hxy : x < y
      · have : ¬ y < x := lt_asymm hxy
        have : y ≠ x := ne_of_gt hxy
        simp [goStrLt, ‹¬ y < x›, this]
      · by_cases hxe : x = y
        · subst hxe
          simp [goStrLt, hxy] at h
          simp [goStrLt, hxy, ih h]
        · simp [goStrLt, hxy, hxe] at h

theorem goStrLt_append_cancel (p a b : List Char) :
    goStrLt (p ++ a) (p ++ b) = goStrLt a b := by
  induction p with
  | nil => rfl
  | cons c cs ih => simp [goStrLt, ih]

theorem goStrLt_append_of_lt {a b : List Char} (x y : List Char)
    (hlen : a.length = b.length) (h : goStrLt a b = true) :
    goStrLt (a ++ x) (b ++ y) = true := by
  induction a generalizing b with
  | nil =>
    cases b with
    | nil => simp [goStrLt] at h
    | cons _ _ => simp at hlen
  | cons c cs ih =>
    cases b with
    | nil => simp [goStrLt] at h
    | cons d ds =>
      by_cases hcd : c < d
      · simp [goStrLt, hcd]
      · by_cases hce : c = d
        · subst hce
          simp [goStrLt, hcd] at h
          simp at hlen
          simp [goStrLt, hcd, ih hlen h]
        · simp [goStrLt, hcd, hce] at h

/-! ## ULID ordering -/

theorem ulidDigit_mono :
    ∀ a, a < 32 → ∀ b, b < 32 → a < b → ulidDigit a < ulidDigit b := by
  decide

theorem digitsBE_length (k : Nat) : ∀ n, (digitsBE k n).length = k := by
  induction k with
  | zero => intro n; rfl
  | succ k ih => intro n; simp [digitsBE, ih]

theorem digitsBE_lt (k : Nat) :
    ∀ n1 n2 : Nat, n1 < n2 → n2 < 32 ^ k →
      goStrLt ((digitsBE k n1).map ulidDigit) ((digitsBE k n2).map ulidDigit) =
        true := by
  induction k with
  | zero =>
    intro n1 n2 h12 hb
    simp at hb
    omega
  | succ k ih =>
    intro n1 n2 h12 hb
    have hple : n1 / 32 ^ k ≤ n2 / 32 ^ k :=
      Nat.div_le_div_right (Nat.le_of_lt h12)
    have hpow : 0 < 32 ^ k := Nat.pos_pow_of_pos k (by norm_num)
    have hd2 : n2 / 32 ^ k < 32 := by
      rw [Nat.div_lt_iff_lt_mul hpow]
      calc n2 < 32 ^ (k + 1) := hb
        _ = 32 * 32 ^ k := by ring
    rcases Nat.lt_or_ge (n1 / 32 ^ k) (n2 / 32 ^ k) with hlt | hge
    · have hd1 : n1 / 32 ^ k < 32 := lt_trans hlt hd2
      have hc := ulidDigit_mono _ hd1 _ hd2 hlt
      simp [digitsBE, goStrLt, hc]
    · have heq : n1 / 32 ^ k = n2 / 32 ^ k := Nat.le_antisymm hple hge
      have hm1 := Nat.div_add_mod n1 (32 ^ k)
      have hm2 := Nat.div_add_mod n2 (32 ^ k)
      rw [heq] at hm1
      have hmod : n1 % 32 ^ k < n2 % 32 ^ k := by omega
      have hmb : n2 % 32 ^ k < 32 ^ k := Nat.mod_lt _ hpow
      have htail := ih _ _ hmod hmb
      simp [digitsBE, goStrLt, heq, htail]

/-- **C5** (amended).  The generated cursors sort strictly by byte-wise
lexicographic comparison whenever the two append timestamps fall in
*distinct milliseconds* (`ulid.Timestamp` truncates to milliseconds), for
any entropy values the generator draws; and the deterministic
`TimeToCursor` (nil entropy) is monotone: `t1 ≤ t2` implies
`TimeToCursor t1 ≤ TimeToCursor t2`.  Within one millisecond the random
entropy decides the order, so strictness for instants distinct only at
sub-millisecond precision fails (see the counterexample). -/
theorem cursor_ordering_ms :
    (∀ t1 t2 e1 e2 : Nat,
        goTimestampMs t1 < goTimestampMs t2 → goTimestampMs t2 < 2 ^ 48 →
        goStrLt (ulidChars (goTimestampMs t1) e1)
          (ulidChars (goTimestampMs t2) e2) = true) ∧
    (∀ t1 t2 : Nat, t1 ≤ t2 → goTimestampMs t2 < 2 ^ 48 →
        goStrLt (TimeToCursor t2) (TimeToCursor t1) = false) := by
  constructor
  · intro t1 t2 e1 e2 hms hb
    have hb' : goTimestampMs t2 < 32 ^ 10 := by
      calc goTimestampMs t2 < 2 ^ 48 := hb
        _ < 32 ^ 10 := by norm_num
    have hpre := digitsBE_lt 10 _ _ hms hb'
    have hlen : (ulidTimeChars (goTimestampMs t1)).length =
        (ulidTimeChars (goTimestampMs t2)).length := by
      simp [ulidTimeChars, digitsBE_length]
    exact goStrLt_append_of_lt _ _ hlen hpre
  · intro t1 t2 hle hb
    rcases Nat.lt_or_ge (goTimestampMs t1) (goTimestampMs t2) with hlt | hge
    · have hb' : goTimestampMs t2 < 32 ^ 10 := by
        calc goTimestampMs t2 < 2 ^ 48 := hb
          _ < 32 ^ 10 := by norm_num
      have hpre := digitsBE_lt 10 _ _ hlt hb'
      have hlen : (ulidTimeChars (goTimestampMs t1)).length =
          (ulidTimeChars (goTimestampMs t2)).length := by
        simp [ulidTimeChars, digitsBE_length]
      exact goStrLt_asymm
        (goStrLt_append_of_lt _ _ hlen hpre)
    · have hmle : goTimestampMs t1 ≤ goTimestampMs t2 :=
        Nat.div_le_div_right hle
      have heq : goTimestampMs t1 = goTimestampMs t2 := Nat.le_antisymm hmle hge
      rw [TimeToCursor, TimeToCursor, heq]
      exact goStrLt_irrefl _

/-- **C5** counterexample.  The instants `t1 = 0ns` and `t2 = 1ns` are
distinct with `t1 < t2`, but they fall in the same millisecond, so
`StoreLogEntry`'s ULIDs for them are ordered by the random entropy alone:
with entropy draws `1` for the first append and `0` for the second (both
possible outputs of `rand.Reader`), the cursor of the earlier entry does
*not* sort strictly before the later one. -/
theorem cursor_ordering_counterexample :
    (0 : Nat) < 1 ∧
    goStrLt (ulidChars (goTimestampMs 0) 1) (ulidChars (goTimestampMs 1) 0) =
      false := by
  decide

/-- Witness for `cursor_ordering_ms` at `t1 = 1ms`, `t2 = 2ms`. -/
theorem cursor_ordering_ms_witness :
    goStrLt (ulidChars (goTimestampMs 1000000) 5)
        (ulidChars (goTimestampMs 2000000) 3) = true ∧
    goStrLt (TimeToCursor 2000000) (TimeToCursor 1000000) = false :=
  ⟨cursor_ordering_ms.1 1000000 2000000 5 3 (by decide) (by decide),
   cursor_ordering_ms.2 1000000 2000000 (by decide) (by decide)⟩

/-! ## Round-trip chunking (C1) -/

theorem splitKey_ulid (u r : List Char) (hu : '#' ∉ u) :
    splitKey (u ++ '#' :: r) = u := by
  induction u with
  | nil => simp [splitKey]
  | cons c cs ih =>
    simp only [List.mem_cons, not_or] at hu
    have hc : c ≠ '#' := fun h => hu.1 h.symm
    simp [splitKey, List.takeWhile_cons, hc] at ih ⊢
    exact ih hu.2

theorem flatten_chunkSlices (msg : List Nat) (n : Nat) :
    ((List.range n).map (chunkSlice msg)).flatten =
      msg.take (n * MaxMessageSize) := by
  induction n with
  | zero => simp
  | succ n ih =>
    rw [List.range_succ]
    simp only [List.map_append, List.map_cons, List.map_nil,
      List.flatten_append, List.flatten_cons, List.flatten_nil, ih,
      List.append_nil, chunkSlice]
    rw [Nat.succ_mul, List.take_add]

theorem partition_foldl_uniform (k : List Char) (l : List DBItem) :
    ∀ acc : List DBItem,
      (∀ it ∈ l, it.totalChunks > 1 ∧ splitKey it.timestampSeq = k) →
      l.foldl partStep ([(k, acc)], []) = ([(k, acc ++ l)], []) := by
  induction l with
  | nil => intro acc _; simp
  | cons it rest ih =>
    intro acc h
    have hit := h it (by simp)
    have hrest : ∀ x ∈ rest, x.totalChunks > 1 ∧ splitKey x.timestampSeq = k :=
      fun x hx => h x (List.mem_cons_of_mem _ hx)
    rw [List.foldl_cons]
    have hstep : partStep ([(k, acc)], []) it = ([(k, acc ++ [it])], []) := by
      simp [partStep, hit.1, hit.2, insertChunk]
    rw [hstep, ih (acc ++ [it]) hrest, List.append_assoc]
    simp

theorem partitionItems_uniform (k : List Char) (items : List DBItem)
    (hne : items ≠ [])
    (h : ∀ it ∈ items, it.totalChunks > 1 ∧ splitKey it.timestampSeq = k) :
    partitionItems items = ([(k, items)], []) := by
  cases items with
  | nil => exact absurd rfl hne
  | cons it rest =>
    have hit := h it (by simp)
    have hrest : ∀ x ∈ rest, x.totalChunks > 1 ∧ splitKey x.timestampSeq = k :=
      fun x hx => h x (List.mem_cons_of_mem _ hx)
    unfold partitionItems
    rw [List.foldl_cons]
    have hstep : partStep ([], []) it = ([(k, [it])], []) := by
      simp [partStep, hit.1, hit.2, insertChunk]
    rw [hstep, partition_foldl_uniform k rest [it] hrest]
    simp

/-- **C1** (confirmed).  Appending an entry whose message exceeds
`MaxMessageSize` stores exactly `⌈size/max⌉` items, and decoding those
items back through `unmarshalAndReassemble` yields exactly one logical
entry whose message equals the original byte-for-byte, for any ULID the
generator mints and any timestamp parser. -/
theorem chunk_roundtrip (fmtTs : Int → String) (expireAt : Int)
    (entry : LogEntry) (u : List Char) (parseTs : String → Option Int)
    (hu : '#' ∉ u) (hlen : MaxMessageSize < entry.message.length) :
    (StoreLogEntry fmtTs expireAt entry u).length =
      (entry.message.length + MaxMessageSize - 1) / MaxMessageSize ∧
    (unmarshalAndReassemble (StoreLogEntry fmtTs expireAt entry u)
        parseTs).map (fun e => e.message) = [entry.message] := by
  have hmax : MaxMessageSize = 358400 := rfl
  have hsl : StoreLogEntry fmtTs expireAt entry u =
      storeChunkedItems fmtTs expireAt entry u := by
    rw [StoreLogEntry, if_neg (by omega)]
  set n := (entry.message.length + MaxMessageSize - 1) / MaxMessageSize with hn
  have hn2 : 2 ≤ n := by
    rw [hn, Nat.le_div_iff_mul_le (by omega)]
    omega
  have hcover : entry.message.length ≤ n * MaxMessageSize := by
    rw [hn]
    simp only [hmax] at hlen ⊢
    omega
  have hlen1 : (StoreLogEntry fmtTs expireAt entry u).length = n := by
    rw [hsl, storeChunkedItems]
    simp [← hn]
  refine ⟨hlen1, ?_⟩
  have huniform : ∀ it ∈ StoreLogEntry fmtTs expireAt entry u,
      it.totalChunks > 1 ∧ splitKey it.timestampSeq = u := by
    intro it hit
    rw [hsl, storeChunkedItems] at hit
    simp only [← hn, List.mem_map, List.mem_range] at hit
    obtain ⟨i, _, hi⟩ := hit
    subst hi
    exact ⟨by simpa using hn2, splitKey_ulid u _ hu⟩
  have hne : StoreLogEntry fmtTs expireAt entry u ≠ [] := by
    intro hcontra
    rw [hcontra] at hlen1
    simp only [List.length_nil] at hlen1
    omega
  have hpart := partitionItems_uniform u _ hne huniform
  obtain ⟨c, cs, hcons⟩ := List.exists_cons_of_ne_nil hne
  have hmsgs : (StoreLogEntry fmtTs expireAt entry u).map
      (fun it => it.message) =
      (List.range n).map (chunkSlice entry.message) := by
    rw [hsl, storeChunkedItems]
    simp [← hn, List.map_map]
  rw [unmarshalAndReassemble, hpart]
  simp only [List.filterMap, List.map_nil, List.append_nil]
  rw [hcons, chunkEntry]
  simp only [List.filterMap_cons, List.filterMap_nil, List.map_cons,
    List.map_nil]
  have hmapcons : c.message :: List.map (fun it => it.message) cs =
      (c :: cs).map (fun it => it.message) := rfl
  rw [hmapcons, ← hcons, hmsgs, flatten_chunkSlices,
    List.take_of_length_le hcover]

/-- The spec scenario entry: a 400000-byte message (`"a" * 400000`). -/
def entry400k : LogEntry :=
  { level := "INFO"
    message := List.replicate 400000 97
    source := "app"
    logger := "logger"
    timestamp := 0
    requestID := ""
    cursor := [] }

/-- Witness for `chunk_roundtrip`: the 400000-byte message of the spec
scenario is stored as 2 items and decodes back to one entry with the full
message. -/
theorem chunk_roundtrip_witness :
    '#' ∉ ulidChars 0 0 ∧ MaxMessageSize < entry400k.message.length ∧
    (StoreLogEntry (fun _ => "") 0 entry400k (ulidChars 0 0)).length = 2 ∧
    (unmarshalAndReassemble (StoreLogEntry (fun _ => "") 0 entry400k
        (ulidChars 0 0)) (fun _ => none)).map (fun e => e.message) =
      [entry400k.message] := by
  have h1 : '#' ∉ ulidChars 0 0 := by decide
  have h2 : MaxMessageSize < entry400k.message.length := by
    show MaxMessageSize < (List.replicate 400000 97).length
    rw [List.length_replicate]
    norm_num [MaxMessageSize]
  have h := chunk_roundtrip (fun _ => "") 0 entry400k (ulidChars 0 0)
    (fun _ => none) h1 h2
  refine ⟨h1, h2, ?_, h.2⟩
  rw [h.1]
  have hm : entry400k.message = List.replicate 400000 97 := rfl
  rw [hm, List.length_replicate]
  norm_num [MaxMessageSize]

/-! ## Dedup window (C2) -/

theorem lookup_recordAlert (rid : String) (p : Int) (m : Nat) (w : Int) :
    (recordAlert rid p m w).lookup "lastAlertSent" = some (AttrVal.N p) := by
  rfl

/-- State invariant threaded through a cycle run: `p` is the time of the
last notification actually sent (if any), and the persisted dedup item is
exactly what `recordAlert` wrote then. -/
def stateInv (rid : String) (wns : Int) (st : Option AlertAttrs)
    (p : Option Int) : Prop :=
  match p with
  | none => st = none
  | some t0 => ∃ m, st = some (recordAlert rid t0 m wns)

theorem sentTimes_chain_aux (rule : AlertRule) (rid : String) (wns : Int)
    (hw : parseWindow rule.window = .ok wns) :
    ∀ (cs : List (Int × Nat × Bool)) (st : Option AlertAttrs)
      (p : Option Int), stateInv rid wns st p →
      List.Chain' (fun a b => wns ≤ (b - a) * 1000000000)
        (p.toList ++ sentTimes rule rid st cs) := by
  intro cs
  induction cs with
  | nil =>
    intro st p _
    cases p <;> simp [sentTimes]
  | cons c rest ih =>
    intro st p hinv
    obtain ⟨t, m, ok⟩ := c
    cases p with
    | none =>
      have hst : st = none := hinv
      subst hst
      by_cases hm : m = 0
      · simp only [sentTimes, processRule, hw, shouldSendAlert, hm]
        simpa using ih none none rfl
      · by_cases hok : ok = true
        · simp only [sentTimes, processRule, hw, shouldSendAlert, hm, hok]
          simp only [Bool.not_true, Bool.false_eq_true, if_false, if_neg hm]
          have := ih (some (recordAlert rid t m wns)) (some t) ⟨m, rfl⟩
          simpa using this
        · have hok' : ok = false := by
            cases ok
            · rfl
            · exact absurd rfl hok
          subst hok'
          simp only [sentTimes, processRule, hw, shouldSendAlert, if_neg hm]
          simpa using ih none none rfl
    | some t0 =>
      obtain ⟨m0, hst⟩ := hinv
      subst hst
      by_cases hwin : (t - t0) * 1000000000 < wns
      · simp only [sentTimes, processRule, hw, shouldSendAlert,
          lookup_recordAlert, if_pos hwin]
        simpa using ih (some (recordAlert rid t0 m0 wns)) (some t0) ⟨m0, rfl⟩
      · by_cases hm : m = 0
        · simp only [sentTimes, processRule, hw, shouldSendAlert,
            lookup_recordAlert, if_neg hwin, if_pos hm]
          simpa using ih (some (recordAlert rid t0 m0 wns)) (some t0) ⟨m0, rfl⟩
        · by_cases hok : ok = true
          · simp only [sentTimes, processRule, hw, shouldSendAlert,
              lookup_recordAlert, if_neg hwin, if_neg hm, hok]
            have htail := ih (some (recordAlert rid t m wns)) (some t) ⟨m, rfl⟩
            simp only [Option.toList_some, List.singleton_append] at htail ⊢
            simp only [Bool.not_true, Bool.false_eq_true, if_false]
            exact List.Chain'.cons (by omega) htail
          · have hok' : ok = false := by
              cases ok
              · rfl
              · exact absurd rfl hok
            subst hok'
            simp only [sentTimes, processRule, hw, shouldSendAlert,
              lookup_recordAlert, if_neg hwin, if_neg hm]
            simpa using ih (some (recordAlert rid t0 m0 wns)) (some t0)
              ⟨m0, rfl⟩

theorem sentTimes_sublist (rule : AlertRule) (rid : String) :
    ∀ (cs : List (Int × Nat × Bool)) (st : Option AlertAttrs),
      List.Sublist (sentTimes rule rid st cs) (cs.map (fun c => c.1)) := by
  intro cs
  induction cs with
  | nil => intro st; simp [sentTimes]
  | cons c rest ih =>
    intro st
    obtain ⟨t, m, ok⟩ := c
    simp only [sentTimes, List.map_cons]
    by_cases hs :
        (processRule rule rid st t m ok).2 = CycleOutcome.sent
    · rw [if_pos hs]
      exact List.Sublist.cons₂ t (ih _)
    · rw [if_neg hs]
      exact List.Sublist.cons t (ih _)

theorem chain_gap_pairwise (wns : Int) :
    ∀ l : List Int,
      List.Chain' (fun a b => wns ≤ (b - a) * 1000000000) l →
      l.Pairwise (fun a b => a ≤ b) →
      l.Pairwise (fun a b => wns ≤ (b - a) * 1000000000) := by
  intro l
  induction l with
  | nil => intro _ _; exact List.Pairwise.nil
  | cons x l ih =>
    intro hc hs
    cases l with
    | nil => simp
    | cons y l2 =>
      rw [List.chain'_cons] at hc
      rw [List.pairwise_cons] at hs
      refine List.Pairwise.cons ?_ (ih hc.2 hs.2)
      intro b hb
      rcases List.mem_cons.mp hb with hb | hb
      · subst hb; exact hc.1
      · have hyb : y ≤ b := (List.pairwise_cons.mp hs.2).1 b hb
        have := hc.1
        omega

/-- **C2** (confirmed).  For a rule whose window parses to `wns`
nanoseconds, across any sequence of alert cycles with nondecreasing
invocation times, any two notifications actually sent are at least the
window apart — at most one notification per rule per window; with window
`10m`, two cycles 5 minutes apart with matches in both send exactly one
notification, and two cycles 15 minutes apart send two. -/
theorem dedup_window_once :
    (∀ (rule : AlertRule) (rid : String) (wns : Int)
        (cs : List (Int × Nat × Bool)),
        parseWindow rule.window = .ok wns →
        (cs.map (fun c => c.1)).Pairwise (fun a b => a ≤ b) →
        (sentTimes rule rid none cs).Pairwise
          (fun a b => wns ≤ (b - a) * 1000000000)) ∧
    (runCycles ⟨"ERROR", "10m", "ops@example.com"⟩ "rule-0" none
        [(0, 1, true), (300, 1, true)]).2.count .sent = 1 ∧
    (runCycles ⟨"ERROR", "10m", "ops@example.com"⟩ "rule-0" none
        [(0, 1, true), (900, 1, true)]).2.count .sent = 2 := by
  refine ⟨?_, by decide, by decide⟩
  intro rule rid wns cs hw hsorted
  have hchain := sentTimes_chain_aux rule rid wns hw cs none none rfl
  simp only [Option.toList_none, List.nil_append] at hchain
  have hsub := sentTimes_sublist rule rid cs none
  exact chain_gap_pairwise wns _ hchain (List.Pairwise.sublist hsub hsorted)

deriving instance DecidableEq for Except

/-- Witness for `dedup_window_once` at the 15-minutes-apart scenario. -/
theorem dedup_window_once_witness :
    (sentTimes ⟨"ERROR", "10m", "ops@example.com"⟩ "rule-0" none
        [(0, 1, true), (900, 1, true)]).Pairwise
      (fun a b => (600000000000 : Int) ≤ (b - a) * 1000000000) :=
  dedup_window_once.1 ⟨"ERROR", "10m", "ops@example.com"⟩ "rule-0"
    600000000000 [(0, 1, true), (900, 1, true)] (by decide) (by decide)

/-! ## Dedup state written only after a successful send (C7) -/

/-- **C7** (confirmed).  `processRule` leaves the rule's dedup state
untouched unless the outcome is a successful send: in particular a
notifier (email) failure changes nothing, so the next cycle retries; and
when the outcome *is* a send, the email succeeded and the state written is
exactly `recordAlert(now, matchCount, window)`. -/
theorem no_speculative_dedup_write :
    ∀ (rule : AlertRule) (rid : String) (st : Option AlertAttrs)
      (now : Int) (nMatches : Nat) (emailOk : Bool),
      (emailOk = false →
        (processRule rule rid st now nMatches emailOk).1 = st) ∧
      ((processRule rule rid st now nMatches emailOk).2 ≠ .sent →
        (processRule rule rid st now nMatches emailOk).1 = st) ∧
      ((processRule rule rid st now nMatches emailOk).2 = .sent →
        emailOk = true ∧
        ∃ wns, parseWindow rule.window = .ok wns ∧
          (processRule rule rid st now nMatches emailOk).1 =
            some (recordAlert rid now nMatches wns)) := by
  intro rule rid st now nMatches emailOk
  cases h : parseWindow rule.window with
  | error e =>
    have hp : processRule rule rid st now nMatches emailOk =
        (st, .errorInvalidWindow) := by
      simp [processRule, h]
    refine ⟨fun _ => by rw [hp], fun _ => by rw [hp], fun hs => ?_⟩
    rw [hp] at hs
    simp at hs
  | ok wns =>
    cases hsa : shouldSendAlert st now wns with
    | false =>
      have hp : processRule rule rid st now nMatches emailOk =
          (st, .skippedDedup) := by
        simp [processRule, h, hsa]
      refine ⟨fun _ => by rw [hp], fun _ => by rw [hp], fun hs => ?_⟩
      rw [hp] at hs
      simp at hs
    | true =>
      by_cases hm : nMatches = 0
      · have hp : processRule rule rid st now nMatches emailOk =
            (st, .noMatches) := by
          simp [processRule, h, hsa, hm]
        refine ⟨fun _ => by rw [hp], fun _ => by rw [hp], fun hs => ?_⟩
        rw [hp] at hs
        simp at hs
      · cases emailOk with
        | false =>
          have hp : processRule rule rid st now nMatches false =
              (st, .emailFailed) := by
            simp [processRule, h, hsa, hm]
          refine ⟨fun _ => by rw [hp], fun _ => by rw [hp], fun hs => ?_⟩
          rw [hp] at hs
          simp at hs
        | true =>
          have hp : processRule rule rid st now nMatches true =
              (some (recordAlert rid now nMatches wns), .sent) := by
            simp [processRule, h, hsa, hm]
          refine ⟨fun hok => by simp at hok, fun hs => ?_,
            fun _ => ⟨rfl, wns, rfl, by rw [hp]⟩⟩
          rw [hp] at hs
          exact absurd rfl hs

/-- Witness for `no_speculative_dedup_write`: a failing notifier leaves
the (absent) dedup state absent. -/
theorem no_speculative_dedup_write_witness :
    (processRule ⟨"ERROR", "10m", "ops@example.com"⟩ "rule-0" none 0 3
        false).1 = none :=
  (no_speculative_dedup_write ⟨"ERROR", "10m", "ops@example.com"⟩ "rule-0"
    none 0 3 false).1 rfl

/-! ## Malformed windows (C8) -/

/-- **C8** counterexample.  The window string `"oopsd"` is malformed (its
day count is not a number), yet `parseWindow` returns `0` with *no error*
— `fmt.Sscanf`'s error is discarded — so `processRule` does not skip the
rule: with no prior state and one match it queries, sends, and writes
dedup state. -/
theorem malformed_window_counterexample :
    parseWindow "oopsd" = .ok 0 ∧
    processRule ⟨"ERROR", "oopsd", "ops@example.com"⟩ "rule-0" none 0 1
        true = (some (recordAlert "rule-0" 0 1 0), .sent) := by
  decide

/-- **C8** (amended).  Whenever `parseWindow` does report an error, the
rule is skipped for the cycle with no state mutation — but `parseWindow`
*never* errors on a (trimmed, lowercased) window ending in `d`: the
`Sscanf` error is ignored, an unparseable day count silently becomes a
zero-duration window and the rule is processed (see the counterexample). -/
theorem malformed_window_skips :
    (∀ (rule : AlertRule) (rid : String) (st : Option AlertAttrs)
        (now : Int) (nMatches : Nat) (emailOk : Bool) (e : String),
        parseWindow rule.window = .error e →
        processRule rule rid st now nMatches emailOk =
          (st, .errorInvalidWindow)) ∧
    (∀ w : String, hasSuffix1 (goTrimLower w) 'd' = true →
        ∃ n, parseWindow w = .ok n) := by
  constructor
  · intro rule rid st now nMatches emailOk e h
    simp [processRule, h]
  · intro w h
    have hd : (goTrimLower w).getLast? = some 'd' := by
      simpa [hasSuffix1] using h
    have hm : hasSuffix1 (goTrimLower w) 'm' = false := by
      simp [hasSuffix1, hd]
    have hh : hasSuffix1 (goTrimLower w) 'h' = false := by
      simp [hasSuffix1, hd]
    refine ⟨sscanfInt (goTrimLower w).dropLast * 24 * 3600000000000, ?_⟩
    simp [parseWindow, hm, hh, h]

/-- Witness for `malformed_window_skips`: window `"xyz"` errors and the
rule is skipped; window `"oopsd"` ends in `d`. -/
theorem malformed_window_skips_witness :
    processRule ⟨"ERROR", "xyz", "ops@example.com"⟩ "rule-0" none 0 1 true =
      (none, .errorInvalidWindow) ∧
    ∃ n, parseWindow "oopsd" = .ok n :=
  ⟨malformed_window_skips.1 ⟨"ERROR", "xyz", "ops@example.com"⟩ "rule-0"
      none 0 1 true "time: invalid duration" (by decide),
   malformed_window_skips.2 "oopsd" (by decide)⟩

/-! ## Fail-open eligibility check (C10) -/

/-- **C10** (confirmed).  `shouldSendAlert` fails open: when the dedup
item exists but its `lastAlertSent` attribute is missing or is not a
numeric attribute, the rule is treated as eligible to alert. -/
theorem dedup_fail_open :
    ∀ (attrs : AlertAttrs) (now windowNs : Int),
      (attrs.lookup "lastAlertSent" = none →
        shouldSendAlert (some attrs) now windowNs = true) ∧
      (∀ v, attrs.lookup "lastAlertSent" = some v →
        (∀ n : Int, v ≠ AttrVal.N n) →
        shouldSendAlert (some attrs) now windowNs = true) := by
  intro attrs now windowNs
  constructor
  · intro h
    simp [shouldSendAlert, h]
  · intro v h hv
    cases v with
    | S s => simp [shouldSendAlert, h]
    | N n => exact absurd rfl (hv n)
    | B b => simp [shouldSendAlert, h]

/-- Witness for `dedup_fail_open`: a missing attribute and a string-typed
attribute both leave the rule eligible. -/
theorem dedup_fail_open_witness :
    shouldSendAlert (some [("ruleID", AttrVal.S "rule-0")]) 0 600000000000 =
      true ∧
    shouldSendAlert (some [("lastAlertSent", AttrVal.S "garbage")]) 0
        600000000000 = true :=
  ⟨(dedup_fail_open [("ruleID", AttrVal.S "rule-0")] 0 600000000000).1
      (by decide),
   (dedup_fail_open [("lastAlertSent", AttrVal.S "garbage")] 0
      600000000000).2 (AttrVal.S "garbage") (by decide)
      (by intro n h; cases h)⟩

/-! ## Provenance of decoded entries -/

theorem insertChunk_mem (k : List Char) (it : DBItem) :
    ∀ (m : List (List Char × List DBItem)) (g : List Char × List DBItem),
      g ∈ insertChunk m k it → ∀ x ∈ g.2,
        (∃ g' ∈ m, x ∈ g'.2) ∨ x = it := by
  intro m
  induction m with
  | nil =>
    intro g hg x hx
    simp [insertChunk] at hg
    subst hg
    simp at hx
    exact Or.inr hx
  | cons p rest ih =>
    intro g hg x hx
    obtain ⟨k', its⟩ := p
    by_cases hk : k' = k
    · simp only [insertChunk, if_pos hk] at hg
      rcases List.mem_cons.mp hg with hg | hg
      · subst hg
        simp only [List.mem_append, List.mem_singleton] at hx
        rcases hx with hx | hx
        · exact Or.inl ⟨(k', its), by simp, hx⟩
        · exact Or.inr hx
      · exact Or.inl ⟨g, by simp [hg], hx⟩
    · simp only [insertChunk, if_neg hk] at hg
      rcases List.mem_cons.mp hg with hg | hg
      · subst hg
        exact Or.inl ⟨(k', its), by simp, hx⟩
      · rcases ih g hg x hx with h | h
        · obtain ⟨g', hg', hx'⟩ := h
          exact Or.inl ⟨g', by simp [hg'], hx'⟩
        · exact Or.inr h

theorem partition_foldl_mem (x : DBItem) :
    ∀ (l : List DBItem) (acc : List (List Char × List DBItem) × List DBItem),
      ((∃ g ∈ (l.foldl partStep acc).1, x ∈ g.2) ∨
        x ∈ (l.foldl partStep acc).2) →
      (∃ g ∈ acc.1, x ∈ g.2) ∨ x ∈ acc.2 ∨ x ∈ l := by
  intro l
  induction l with
  | nil =>
    intro acc h
    simp only [List.foldl_nil] at h
    rcases h with h | h
    · exact Or.inl h
    · exact Or.inr (Or.inl h)
  | cons it rest ih =>
    intro acc h
    rw [List.foldl_cons] at h
    rcases ih (partStep acc it) h with h | h | h
    · obtain ⟨g, hg, hx⟩ := h
      by_cases hc : it.totalChunks > 1
      · simp only [partStep, if_pos hc] at hg
        rcases insertChunk_mem _ it acc.1 g hg x hx with h' | h'
        · exact Or.inl h'
        · exact Or.inr (Or.inr (by simp [h']))
      · simp only [partStep, if_neg hc] at hg
        exact Or.inl ⟨g, hg, hx⟩
    · by_cases hc : it.totalChunks > 1
      · simp only [partStep, if_pos hc] at h
        exact Or.inr (Or.inl h)
      · simp only [partStep, if_neg hc] at h
        rcases List.mem_append.mp h with h' | h'
        · exact Or.inr (Or.inl h')
        · exact Or.inr (Or.inr (by simp at h'; simp [h']))
    · exact Or.inr (Or.inr (List.mem_cons_of_mem _ h))

/-- Every decoded entry's cursor and timestamp come from some input item
(for a chunk group: from its first chunk). -/
theorem unmarshal_src (items : List DBItem) (parseTs : String → Option Int)
    (e : LogEntry) (he : e ∈ unmarshalAndReassemble items parseTs) :
    ∃ it ∈ items, e.cursor = splitKey it.timestampSeq ∧
      e.timestamp = (parseTs it.timestamp).getD 0 := by
  rw [unmarshalAndReassemble] at he
  rcases List.mem_append.mp he with he | he
  · obtain ⟨g, hg, hge⟩ := List.mem_filterMap.mp he
    cases hchunks : g.2 with
    | nil => rw [hchunks] at hge; simp [chunkEntry] at hge
    | cons c cs =>
      rw [hchunks] at hge
      simp only [chunkEntry, Option.some.injEq] at hge
      have hc : c ∈ g.2 := by rw [hchunks]; simp
      have hmem : (∃ g' ∈ (partitionItems items).1, c ∈ g'.2) ∨
          c ∈ (partitionItems items).2 := Or.inl ⟨g, hg, hc⟩
      rcases partition_foldl_mem c items ([], []) hmem with h | h | h
      · simp at h
      · simp at h
      · exact ⟨c, h, by rw [← hge], by rw [← hge]⟩
  · obtain ⟨it, hit, hite⟩ := List.mem_map.mp he
    have hmem : (∃ g' ∈ (partitionItems items).1, it ∈ g'.2) ∨
        it ∈ (partitionItems items).2 := Or.inr hit
    rcases partition_foldl_mem it items ([], []) hmem with h | h | h
    · simp at h
    · simp at h
    · exact ⟨it, h, by rw [← hite]; rfl, by rw [← hite]; rfl⟩

/-! ## Corrupt stored timestamps never fail a read (C9) -/

/-- **C9** (confirmed).  Decoding is total in the stored timestamp: the
parse error is discarded, so when an item's timestamp attribute does not
parse, every affected entry carries the zero instant and (for a
stand-alone item) all other fields intact — the read never errors. -/
theorem timestamp_parse_total :
    (∀ (items : List DBItem) (parseTs : String → Option Int),
        (∀ it ∈ items, parseTs it.timestamp = none) →
        ∀ e ∈ unmarshalAndReassemble items parseTs, e.timestamp = 0) ∧
    (∀ (it : DBItem) (parseTs : String → Option Int),
        parseTs it.timestamp = none → it.totalChunks ≤ 1 →
        unmarshalAndReassemble [it] parseTs =
          [{ level := it.level, message := it.message, source := it.source,
             logger := it.logger, timestamp := 0, requestID := it.requestID,
             cursor := splitKey it.timestampSeq }]) := by
  constructor
  · intro items parseTs hnone e he
    obtain ⟨it, hit, _, hts⟩ := unmarshal_src items parseTs e he
    rw [hts, hnone it hit]
    rfl
  · intro it parseTs hp hc
    have hnc : ¬ it.totalChunks > 1 := by omega
    simp [unmarshalAndReassemble, partitionItems, partStep, hnc,
      singleEntry, hp]

/-- Witness for `timestamp_parse_total` at a concrete corrupt item. -/
theorem timestamp_parse_total_witness :
    unmarshalAndReassemble
        [{ pk := "LOGS", timestampSeq := ['A', '#', '0'],
           timestamp := "not-a-timestamp", level := "WARN", message := [1, 2],
           source := "app", logger := "lg", requestID := "r7",
           chunkIndex := 0, totalChunks := 1, expireAt := 0 }]
        (fun _ => none) =
      [{ level := "WARN", message := [1, 2], source := "app", logger := "lg",
         timestamp := 0, requestID := "r7", cursor := ['A'] }] :=
  timestamp_parse_total.2
    { pk := "LOGS", timestampSeq := ['A', '#', '0'],
      timestamp := "not-a-timestamp", level := "WARN", message := [1, 2],
      source := "app", logger := "lg", requestID := "r7",
      chunkIndex := 0, totalChunks := 1, expireAt := 0 }
    (fun _ => none) rfl (by decide)

/-! ## Cursor exclusivity (C3) -/

/-- Shape of every sort key the store writes: a ULID cursor column (chars
all above `'#'` — the ULID alphabet is `0-9A-Z`), then `'#'`, then a
non-empty decimal chunk index. -/
def wellFormedSk (l : List Char) : Bool :=
  (l.takeWhile (fun ch => ch ≠ '#')).all (fun ch => '#' < ch) &&
  ((l.dropWhile (fun ch => ch ≠ '#')).head? = some '#') &&
  decide ((l.dropWhile (fun ch => ch ≠ '#')).tail ≠ []) &&
  (l.dropWhile (fun ch => ch ≠ '#')).tail.all (fun ch => '0' ≤ ch && ch ≤ '9')

theorem wellFormedSk_decomp (l : List Char) (h : wellFormedSk l = true) :
    ∃ ds, l = splitKey l ++ '#' :: ds ∧ ds ≠ [] ∧
      (∀ ch ∈ splitKey l, '#' < ch) ∧ (∀ ch ∈ ds, '0' ≤ ch ∧ ch ≤ '9') := by
  rw [wellFormedSk] at h
  simp only [Bool.and_eq_true, List.all_eq_true, decide_eq_true_eq] at h
  obtain ⟨⟨⟨hpre, hhead⟩, hne⟩, hdig⟩ := h
  cases hr : l.dropWhile (fun ch => ch ≠ '#') with
  | nil => rw [hr] at hhead; simp at hhead
  | cons ch ds =>
    rw [hr] at hhead hne hdig
    simp only [List.head?_cons, Option.some.injEq] at hhead
    subst hhead
    refine ⟨ds, ?_, by simpa using hne, ?_, ?_⟩
    · conv_lhs => rw [← List.takeWhile_append_dropWhile
        (p := fun ch => ch ≠ '#') (l := l)]
      rw [hr]
      rfl
    · intro ch hch
      exact hpre ch hch
    · intro ch hch
      have := hdig ch (by simpa using hch)
      simpa using this

theorem prefix_order (xa : List Char) :
    ∀ (xb ra rb : List Char),
      (∀ ch ∈ xa, '#' < ch) → (∀ ch ∈ xb, '#' < ch) →
      goStrLt (xa ++ '#' :: ra) (xb ++ '#' :: rb) = true →
      goStrLt xb xa = false := by
  induction xa with
  | nil =>
    intro xb ra rb _ _ _
    exact goStrLt_nil_right xb
  | cons x xs ih =>
    intro xb ra rb ha hb h
    have hx : '#' < x := ha x (by simp)
    cases xb with
    | nil =>
      exfalso
      have h1 : ¬ x < '#' := lt_asymm hx
      have h2 : x ≠ '#' := ne_of_gt hx
      simp [goStrLt, h1, h2] at h
    | cons y ys =>
      by_cases hxy : x < y
      · have h1 : ¬ y < x := lt_asymm hxy
        have h2 : y ≠ x := ne_of_gt hxy
        simp [goStrLt, h1, h2]
      · by_cases hxe : x = y
        · subst hxe
          simp only [List.cons_append, goStrLt, lt_irrefl, if_false,
            if_pos rfl] at h ⊢
          exact ih ys ra rb (fun ch hch => ha ch (by simp [hch]))
            (fun ch hch => hb ch (by simp [hch])) h
        · exfalso
          simp [goStrLt, hxy, hxe] at h

/-- A well-formed sort key whose cursor column is `c` is never strictly
below `c ++ "#0"` (its chunk suffix is at least `"0"`). -/
theorem not_lt_hash_zero (l c : List Char) (hwf : wellFormedSk l = true)
    (hk : splitKey l = c) : goStrLt l (c ++ ['#', '0']) = false := by
  obtain ⟨ds, hdecomp, hne, _, hdig⟩ := wellFormedSk_decomp l hwf
  rw [hk] at hdecomp
  rw [hdecomp, goStrLt_append_cancel]
  cases ds with
  | nil => exact absurd rfl hne
  | cons d ds' =>
    have hd : '0' ≤ d := (hdig d (by simp)).1
    have h1 : ¬ ('#' : Char) < '#' := lt_irrefl _
    by_cases hd0 : d = '0'
    · subst hd0
      simp [goStrLt, goStrLt_nil_right]
    · have h2 : ¬ d < '0' := not_lt_of_ge hd
      simp [goStrLt, h1, h2, hd0]

theorem mem_queryStore {store : List DBItem} {cond : DBItem → Bool}
    {fwd : Bool} {it : DBItem} (h : it ∈ queryStore store cond fwd) :
    it ∈ store ∧ cond it = true := by
  rw [queryStore] at h
  cases fwd with
  | false =>
    simp only [Bool.false_eq_true, if_false, List.mem_reverse] at h
    exact List.mem_filter.mp h
  | true =>
    simp only [if_true] at h
    exact List.mem_filter.mp h

/-- **C3** (amended).  `beforeCursor` exclusivity always holds — the query
never returns an entry whose cursor equals the supplied cursor.
`afterCursor` exclusivity holds *provided the entry at the cursor is
stored as a single item* (sort key exactly `c#0`): for a multi-chunk
entry the `timestamp_seq > c#0` condition admits sort keys `c#1, c#2, …`,
and the reassembled partial group carries cursor `c` (see the
counterexample). -/
theorem cursor_exclusivity_amended :
    ∀ (store : List DBItem) (parseTs : String → Option Int) (limit : Int)
      (c : List Char),
      (∀ it ∈ store, wellFormedSk it.timestampSeq = true) →
      c ≠ [] →
      (∀ e ∈ GetLogs store parseTs limit [] c, e.cursor ≠ c) ∧
      ((∀ it ∈ store, splitKey it.timestampSeq = c →
          it.timestampSeq = c ++ ['#', '0']) →
        ∀ e ∈ GetLogs store parseTs limit c [], e.cursor ≠ c) := by
  intro store parseTs limit c hwf hc
  constructor
  · intro e he hcur
    rw [GetLogs] at he
    simp only [ne_eq, not_true_eq_false, if_neg, if_pos hc,
      not_false_eq_true] at he
    have he1 := List.mem_reverse.mp (List.mem_of_mem_take he)
    obtain ⟨it, hit, hkey, _⟩ := unmarshal_src _ parseTs e he1
    have hit3 := mem_queryStore (List.mem_of_mem_take hit)
    have hcond := hit3.2
    rw [not_lt_hash_zero it.timestampSeq c (hwf it hit3.1)
      (by rw [← hkey, hcur])] at hcond
    exact absurd hcond (by simp)
  · intro hsingle e he hcur
    rw [GetLogs] at he
    simp only [ne_eq, if_pos hc, not_false_eq_true] at he
    obtain ⟨it, hit, hkey, _⟩ := unmarshal_src _ parseTs
      e (List.mem_of_mem_take he)
    have hit3 := mem_queryStore (List.mem_of_mem_take hit)
    have hcond := hit3.2
    have hsk : it.timestampSeq = c ++ ['#', '0'] :=
      hsingle it hit3.1 (by rw [← hkey, hcur])
    rw [hsk, goStrLt_irrefl] at hcond
    exact absurd hcond (by simp)

/-- **C3** counterexample.  A two-chunk entry stored under ULID cursor
`c`: `GetLogs(afterCursor = c)` matches the chunk with sort key `c#1`
(`"c#1" > "c#0"` byte-wise) and returns a reassembled entry whose cursor
*equals* the `afterCursor`. -/
theorem cursor_after_counterexample :
    ∃ e ∈ GetLogs
      [{ pk := "LOGS", timestampSeq := ulidChars 2 0 ++ ['#', '0'],
         timestamp := "t2", level := "INFO", message := [1], source := "s",
         logger := "l", requestID := "r", chunkIndex := 0, totalChunks := 2,
         expireAt := 0 },
       { pk := "LOGS", timestampSeq := ulidChars 2 0 ++ ['#', '1'],
         timestamp := "t2", level := "INFO", message := [2], source := "s",
         logger := "l", requestID := "r", chunkIndex := 1, totalChunks := 2,
         expireAt := 0 }]
      (fun _ => none) 10 (ulidChars 2 0) [],
      e.cursor = ulidChars 2 0 := by
  decide

/-- Witness for `cursor_exclusivity_amended` on a one-item store. -/
theorem cursor_exclusivity_witness :
    (∀ e ∈ GetLogs
        [{ pk := "LOGS", timestampSeq := ulidChars 1 0 ++ ['#', '0'],
           timestamp := "t1", level := "INFO", message := [5], source := "s",
           logger := "l", requestID := "r", chunkIndex := 0, totalChunks := 1,
           expireAt := 0 }]
        (fun _ => none) 5 [] (ulidChars 3 0), e.cursor ≠ ulidChars 3 0) ∧
    (∀ e ∈ GetLogs
        [{ pk := "LOGS", timestampSeq := ulidChars 1 0 ++ ['#', '0'],
           timestamp := "t1", level := "INFO", message := [5], source := "s",
           logger := "l", requestID := "r", chunkIndex := 0, totalChunks := 1,
           expireAt := 0 }]
        (fun _ => none) 5 (ulidChars 3 0) [], e.cursor ≠ ulidChars 3 0) := by
  have h := cursor_exclusivity_amended
    [{ pk := "LOGS", timestampSeq := ulidChars 1 0 ++ ['#', '0'],
       timestamp := "t1", level := "INFO", message := [5], source := "s",
       logger := "l", requestID := "r", chunkIndex := 0, totalChunks := 1,
       expireAt := 0 }]
    (fun _ => none) 5 (ulidChars 3 0) (by decide) (by decide)
  exact ⟨h.1, h.2 (by decide)⟩

/-! ## Time-range query ordering (C4) -/

theorem partition_foldl_singles :
    ∀ (l : List DBItem) (acc1 : List (List Char × List DBItem))
      (acc2 : List DBItem),
      (∀ it ∈ l, it.totalChunks ≤ 1) →
      l.foldl partStep (acc1, acc2) = (acc1, acc2 ++ l) := by
  intro l
  induction l with
  | nil => intro acc1 acc2 _; simp
  | cons it rest ih =>
    intro acc1 acc2 h
    have hit : ¬ it.totalChunks > 1 := by
      have := h it (by simp)
      omega
    rw [List.foldl_cons]
    have hstep : partStep (acc1, acc2) it = (acc1, acc2 ++ [it]) := by
      simp [partStep, hit]
    rw [hstep, ih acc1 (acc2 ++ [it])
      (fun x hx => h x (List.mem_cons_of_mem _ hx))]
    simp

theorem unmarshal_singles (items : List DBItem)
    (parseTs : String → Option Int)
    (h : ∀ it ∈ items, it.totalChunks ≤ 1) :
    unmarshalAndReassemble items parseTs = items.map (singleEntry parseTs) := by
  rw [unmarshalAndReassemble, partitionItems,
    partition_foldl_singles items [] [] h]
  simp

theorem splitKey_mono (a b : List Char) (hwa : wellFormedSk a = true)
    (hwb : wellFormedSk b = true) (hab : goStrLt a b = true) :
    goStrLt (splitKey b) (splitKey a) = false := by
  obtain ⟨ra, hda, _, hpa, _⟩ := wellFormedSk_decomp a hwa
  obtain ⟨rb, hdb, _, hpb, _⟩ := wellFormedSk_decomp b hwb
  rw [hda, hdb] at hab
  exact prefix_order (splitKey a) (splitKey b) ra rb hpa hpb hab

theorem singles_desc (items : List DBItem) (parseTs : String → Option Int)
    (hwf : ∀ it ∈ items, wellFormedSk it.timestampSeq = true)
    (hs : ∀ it ∈ items, it.totalChunks ≤ 1)
    (hdesc : items.Pairwise
      (fun a b => goStrLt b.timestampSeq a.timestampSeq = true)) :
    (unmarshalAndReassemble items parseTs).Pairwise
      (fun x y => goStrLt x.cursor y.cursor = false) := by
  rw [unmarshal_singles items parseTs hs, List.pairwise_map]
  refine List.Pairwise.imp_of_mem ?_ hdesc
  intro a b ha hb hab
  exact splitKey_mono b.timestampSeq a.timestampSeq (hwf b hb) (hwf a ha) hab

/-- **C4** (amended).  When every item in the store is a single-chunk
item, both `queryLogsByTimeRange` and `GetLogsByTimeRange` return entries
in descending cursor (= chronological) order.  When the result window
contains multi-chunk items this fails: `unmarshalAndReassemble` emits all
reassembled chunk groups *before* all stand-alone entries, so a
reassembled entry can precede strictly newer singleton entries (see the
counterexample). -/
theorem timeRange_descending_singles :
    ∀ (store : List DBItem) (parseTs : String → Option Int)
      (startNs endNs : Nat) (limit : Int),
      (∀ it ∈ store, wellFormedSk it.timestampSeq = true) →
      (∀ it ∈ store, it.totalChunks ≤ 1) →
      store.Pairwise
        (fun a b => goStrLt a.timestampSeq b.timestampSeq = true) →
      (queryLogsByTimeRange store parseTs startNs endNs).Pairwise
        (fun x y => goStrLt x.cursor y.cursor = false) ∧
      (GetLogsByTimeRange store parseTs startNs endNs limit).Pairwise
        (fun x y => goStrLt x.cursor y.cursor = false) := by
  intro store parseTs startNs endNs limit hwf hs hasc
  have hfilter := List.Pairwise.filter (timeRangeCond startNs endNs) hasc
  have hdesc : (queryStore store (timeRangeCond startNs endNs) false).Pairwise
      (fun a b => goStrLt b.timestampSeq a.timestampSeq = true) := by
    rw [queryStore]
    simp only [Bool.false_eq_true, if_false]
    rw [List.pairwise_reverse]
    exact hfilter
  have hsub : ∀ it ∈ queryStore store (timeRangeCond startNs endNs) false,
      it ∈ store := fun it h => (mem_queryStore h).1
  constructor
  · rw [queryLogsByTimeRange]
    exact singles_desc _ parseTs (fun it h => hwf it (hsub it h))
      (fun it h => hs it (hsub it h)) hdesc
  · rw [GetLogsByTimeRange]
    have htake : ∀ it ∈ (queryStore store (timeRangeCond startNs endNs)
        false).take (limit * 2).toNat, it ∈ store :=
      fun it h => hsub it (List.mem_of_mem_take h)
    have hdesc2 := List.Pairwise.sublist
      (List.take_sublist (limit * 2).toNat
        (queryStore store (timeRangeCond startNs endNs) false)) hdesc
    have hout := singles_desc _ parseTs
      (fun it h => hwf it (htake it h)) (fun it h => hs it (htake it h))
      hdesc2
    exact List.Pairwise.sublist (List.take_sublist _ _) hout

/-- The concrete store of the C4 counterexample: a singleton at 1ms, a
two-chunk entry at 2ms, a singleton at 3ms (all reachable by three
appends). -/
def storeC4 : List DBItem :=
  [{ pk := "LOGS", timestampSeq := ulidChars 1 0 ++ ['#', '0'],
     timestamp := "2024-01-01T00:00:00.001Z", level := "INFO", message := [1],
     source := "s", logger := "l", requestID := "r", chunkIndex := 0,
     totalChunks := 1, expireAt := 0 },
   { pk := "LOGS", timestampSeq := ulidChars 2 0 ++ ['#', '0'],
     timestamp := "2024-01-01T00:00:00.002Z", level := "INFO", message := [2],
     source := "s", logger := "l", requestID := "r", chunkIndex := 0,
     totalChunks := 2, expireAt := 0 },
   { pk := "LOGS", timestampSeq := ulidChars 2 0 ++ ['#', '1'],
     timestamp := "2024-01-01T00:00:00.002Z", level := "INFO", message := [3],
     source := "s", logger := "l", requestID := "r", chunkIndex := 1,
     totalChunks := 2, expireAt := 0 },
   { pk := "LOGS", timestampSeq := ulidChars 3 0 ++ ['#', '0'],
     timestamp := "2024-01-01T00:00:00.003Z", level := "INFO", message := [4],
     source := "s", logger := "l", requestID := "r", chunkIndex := 0,
     totalChunks := 1, expireAt := 0 }]

/-- The timestamp parser instantiated on the three strings `storeC4`
uses (instants in Unix milliseconds, matching `time.Parse`'s results on
exactly these RFC3339Nano strings up to the choice of epoch). -/
def parseTsC4 : String → Option Int := fun s =>
  if s = "2024-01-01T00:00:00.001Z" then some 1
  else if s = "2024-01-01T00:00:00.002Z" then some 2
  else if s = "2024-01-01T00:00:00.003Z" then some 3
  else none

/-- **C4** counterexample.  Over `storeC4` the descending time-range query
returns timestamps `[2, 3, 1]` — the reassembled 2ms entry is emitted
before the newer 3ms singleton — so the result is *not* in descending
chronological order, for both `queryLogsByTimeRange` and
`GetLogsByTimeRange`. -/
theorem timeRange_descending_counterexample :
    (queryLogsByTimeRange storeC4 parseTsC4 0 4000000).map
        (fun e => e.timestamp) = [2, 3, 1] ∧
    ¬ List.Chain' (fun x y => y.timestamp ≤ x.timestamp)
        (queryLogsByTimeRange storeC4 parseTsC4 0 4000000) ∧
    ¬ List.Chain' (fun x y => y.timestamp ≤ x.timestamp)
        (GetLogsByTimeRange storeC4 parseTsC4 0 4000000 10) := by
  have h1 : (queryLogsByTimeRange storeC4 parseTsC4 0 4000000).map
      (fun e => e.timestamp) = [2, 3, 1] := by decide
  have h2 : (GetLogsByTimeRange storeC4 parseTsC4 0 4000000 10).map
      (fun e => e.timestamp) = [2, 3, 1] := by decide
  refine ⟨h1, ?_, ?_⟩
  · intro hch
    have hm := (List.chain'_map (R := fun a b : Int => b ≤ a)
      (fun e : LogEntry => e.timestamp)).mpr hch
    rw [h1] at hm
    have h3 := (List.chain'_cons.mp hm).1
    norm_num at h3
  · intro hch
    have hm := (List.chain'_map (R := fun a b : Int => b ≤ a)
      (fun e : LogEntry => e.timestamp)).mpr hch
    rw [h2] at hm
    have h3 := (List.chain'_cons.mp hm).1
    norm_num at h3

/-- Witness for `timeRange_descending_singles` on a two-singleton store. -/
theorem timeRange_descending_witness :
    (queryLogsByTimeRange
        [{ pk := "LOGS", timestampSeq := ulidChars 1 0 ++ ['#', '0'],
           timestamp := "t1", level := "INFO", message := [1], source := "s",
           logger := "l", requestID := "r", chunkIndex := 0, totalChunks := 1,
           expireAt := 0 },
         { pk := "LOGS", timestampSeq := ulidChars 2 0 ++ ['#', '0'],
           timestamp := "t2", level := "INFO", message := [2], source := "s",
           logger := "l", requestID := "r", chunkIndex := 0, totalChunks := 1,
           expireAt := 0 }]
        (fun _ => none) 0 4000000).Pairwise
      (fun x y => goStrLt x.cursor y.cursor = false) :=
  (timeRange_descending_singles
    [{ pk := "LOGS", timestampSeq := ulidChars 1 0 ++ ['#', '0'],
       timestamp := "t1", level := "INFO", message := [1], source := "s",
       logger := "l", requestID := "r", chunkIndex := 0, totalChunks := 1,
       expireAt := 0 },
     { pk := "LOGS", timestampSeq := ulidChars 2 0 ++ ['#', '0'],
       timestamp := "t2", level := "INFO", message := [2], source := "s",
       logger := "l", requestID := "r", chunkIndex := 0, totalChunks := 1,
       expireAt := 0 }]
    (fun _ => none) 0 4000000 7 (by decide) (by decide) (by decide)).1

/-! ## beforeCursor pagination (C6) -/

/-- Five singleton entries at 1ms…5ms; the cursor `X` of the C6 scenario
sits just above the newest of them. -/
def store5 : List DBItem :=
  [{ pk := "LOGS", timestampSeq := ulidChars 1 0 ++ ['#', '0'],
     timestamp := "t1", level := "INFO", message := [1], source := "s",
     logger := "l", requestID := "r", chunkIndex := 0, totalChunks := 1,
     expireAt := 0 },
   { pk := "LOGS", timestampSeq := ulidChars 2 0 ++ ['#', '0'],
     timestamp := "t2", level := "INFO", message := [2], source := "s",
     logger := "l", requestID := "r", chunkIndex := 0, totalChunks := 1,
     expireAt := 0 },
   { pk := "LOGS", timestampSeq := ulidChars 3 0 ++ ['#', '0'],
     timestamp := "t3", level := "INFO", message := [3], source := "s",
     logger := "l", requestID := "r", chunkIndex := 0, totalChunks := 1,
     expireAt := 0 },
   { pk := "LOGS", timestampSeq := ulidChars 4 0 ++ ['#', '0'],
     timestamp := "t4", level := "INFO", message := [4], source := "s",
     logger := "l", requestID := "r", chunkIndex := 0, totalChunks := 1,
     expireAt := 0 },
   { pk := "LOGS", timestampSeq := ulidChars 5 0 ++ ['#', '0'],
     timestamp := "t5", level := "INFO", message := [5], source := "s",
     logger := "l", requestID := "r", chunkIndex := 0, totalChunks := 1,
     expireAt := 0 }]

/-- **C6** (code bug).  With 5 entries before cursor `X` and `limit = 2`,
the chunk-group variant's `GetLogs` over-fetches `2*limit = 4` raw items,
re-reverses them to ascending order and then truncates `allLogs[:limit]`
from the *front* — returning the 3rd- and 4th-oldest entries of the
fetched window (cursors at 2ms and 3ms) instead of the two entries
immediately before `X` (4ms and 5ms).  The older `logs.go` variant, which
fetches exactly `limit` items, returns the entries the spec describes —
the spec states the intended behaviour and the `allLogs[:limit]`
truncation after the reversal is the slip. -/
theorem beforeCursor_window_bug :
    (GetLogs store5 (fun _ => none) 2 [] (ulidChars 6 0)).map
        (fun e => e.cursor) = [ulidChars 2 0, ulidChars 3 0] ∧
    (V0.GetLogs store5 (fun _ => none) 2 [] (ulidChars 6 0)).map
        (fun e => e.cursor) = [ulidChars 4 0, ulidChars 5 0] := by
  decide
